import Mathlib

/-!
Verification of the pQP Schur-complement reduction pipeline (src/src/pQP.cu).

Shallow embedding conventions:
 - a host buffer of doubles is modelled as a total function `Nat → ℚ`
   (exact rational arithmetic idealizes IEEE doubles; no claim here
   depends on rounding);
 - `malloc` returns a buffer with indeterminate contents: the garbage
   contents are parameters of the model (the `Env` structure);
 - the external library routines `cblas_dgemv`, `cblas_dgemm`,
   `LAPACKE_dgesv`, and the libc `rand` stream are modelled from their
   documented contracts, which the source cites;
 - `main` is straight-line code; it is embedded as a list of stages
   (`pipeline`), in source order, folded with a `step` semantics over a
   record of the program's buffers.
-/

/-- Exit code of successful termination (stdlib constant). -/
def EXIT_SUCCESS : Nat := 0

/-- Exit code of standard failure termination (stdlib constant, value 1). -/
def EXIT_FAILURE : Nat := 1

/-- A host buffer of doubles, addressed by flat index. -/
def Buf : Type := Nat → ℚ

/-- Write value `v` at flat index `i` of buffer `b`. -/
def wr (b : Buf) (i : Nat) (v : ℚ) : Buf := fun j => if j = i then v else b j

/-- One sample of the data provider's random expression
`((2 * rand() - RAND_MAX) % 1000 + 1) / 1000.0` (C `%` truncates toward
zero, hence `Int.tmod`). -/
def randVal (randMax r : Int) : ℚ :=
  (((2 * r - randMax).tmod 1000 + 1 : Int) : ℚ) / 1000

/-- Model of `cblas_dgemv(CblasColMajor, CblasNoTrans, m, n, alpha, A, lda,
x, 1, beta, y, 1)`: `y(i) := alpha * (A x)(i) + beta * y(i)` for `i < m`,
entries of `y` beyond row `m` untouched. -/
def dgemv (m n : Nat) (alpha : ℚ) (A : Buf) (lda : Nat) (x : Buf)
    (beta : ℚ) (y : Buf) : Buf :=
  fun i =>
    if i < m then
      alpha * (∑ j ∈ Finset.range n, A (i + j * lda) * x j) + beta * y i
    else y i

/-- Model of `cblas_dgemm(CblasColMajor, transA, CblasNoTrans, m, n, k,
alpha, A, lda, B, ldb, beta, C, ldc)` on column-major buffers:
`C(i,j) := alpha * (op(A) B)(i,j) + beta * C(i,j)` for `i < m`, `j < n`,
where `C(i,j)` lives at flat index `i + j*ldc`; other entries untouched. -/
def dgemm (transA : Bool) (m n k : Nat) (alpha : ℚ) (A : Buf) (lda : Nat)
    (B : Buf) (ldb : Nat) (beta : ℚ) (C : Buf) (ldc : Nat) : Buf :=
  fun idx =>
    let i := idx % ldc
    let j := idx / ldc
    if i < m ∧ j < n then
      alpha * (∑ l ∈ Finset.range k,
          (if transA then A (l + i * lda) else A (i + l * lda)) * B (l + j * ldb))
        + beta * C idx
    else C idx

/-- Inner `j`-loop of `copy_as_transpose` for a fixed source row `i`:
writes `dest[j * n_rows_source + i] = source[i * n_cols_source + j]` for
`j < m` (the real loop runs it with `m = n_cols_source = c`). -/
def transInner (d src : Buf) (r c i m : Nat) : Buf :=
  (List.range m).foldl (fun d2 j => wr d2 (j * r + i) (src (i * c + j))) d

/-- Outer `i`-loop of `copy_as_transpose`, running the inner loop for each
source row `i < m` (the real loop runs it with `m = n_rows_source = r`). -/
def transOuter (d src : Buf) (r c m : Nat) : Buf :=
  (List.range m).foldl (fun d1 i => transInner d1 src r c i c) d

/-- Model of `copy_as_transpose<T>(dest, source, n_rows_source,
n_cols_source)` (lines 99-108): the nested loops writing
`dest[j * r + i] = source[i * c + j]` for `i < r`, `j < c`.  The actual
calls never alias `dest` and `source`, which the two-buffer signature
reflects. -/
def copy_as_transpose (d src : Buf) (r c : Nat) : Buf :=
  transOuter d src r c r

/-- Iteration `i` of the provider loop on `Q`: `Q[i*(N+1)] += 2.0*N`. -/
def qUpd (N : Nat) (q : Buf) (i : Nat) : Buf :=
  wr q (i * (N + 1)) (q (i * (N + 1)) + 2 * N)

/-- Iteration `i` of the provider loop on `h`: a fresh random sample (the
`N*N + i`-th value of the seeded stream, after the `N*N` used for `Q_init`). -/
def hUpd (rand : Nat → Int) (randMax : Int) (N : Nat) (h : Buf) (i : Nat) : Buf :=
  wr h i (randVal randMax (rand (N * N + i)))

/-- Iteration `i` of the provider loop on `V`: `V[i*(2N+1)] = 1` then
`V[i*(2N+1)+N] = -1` (column-major entries `(i,i)` and `(N+i,i)`). -/
def vUpd (N : Nat) (v : Buf) (i : Nat) : Buf :=
  wr (wr v (i * (2 * N + 1)) 1) (i * (2 * N + 1) + N) (-1)

/-- Iteration `i` of the provider loop on `W`: `W[i] = 10`, `W[i+N] = -9`. -/
def wUpd (N : Nat) (w : Buf) (i : Nat) : Buf :=
  wr (wr w i 10) (i + N) (-9)

/-- The single provider loop (lines 68-75) over `i < N`; each iteration
touches the four pairwise-distinct buffers `Q`, `h`, `V`, `W` via the
per-buffer updates above. -/
def initLoop (rand : Nat → Int) (randMax : Int) (N : Nat)
    (st : Buf × Buf × Buf × Buf) : Buf × Buf × Buf × Buf :=
  (List.range N).foldl
    (fun st i =>
      (qUpd N st.1 i, hUpd rand randMax N st.2.1 i, vUpd N st.2.2.1 i,
        wUpd N st.2.2.2 i))
    st

/-- Body of `init_matrices` after the null checks (lines 59-77): fill
`Q_init` with `N*N` random samples (its malloc garbage `gQinit` beyond
that is never read), form `Q = Q_init^T * Q_init` by `cblas_dgemm`, then
run the provider loop.  Returns the new `(Q, h, V, W)` contents. -/
def init_core (rand : Nat → Int) (randMax : Int) (N : Nat) (gQinit : Buf)
    (Q h V W : Buf) : Buf × Buf × Buf × Buf :=
  let Q_init : Buf := fun i => if i < N * N then randVal randMax (rand i) else gQinit i
  let Q1 := dgemm true N N N 1 Q_init N Q_init N 0 Q N
  initLoop rand randMax N (Q1, h, V, W)

/-- Result of `init_matrices`: the four (possibly null) buffers as left by
the call, the C return code, and the diagnostic lines written to stderr. -/
structure InitOut where
  Q : Option Buf
  h : Option Buf
  V : Option Buf
  W : Option Buf
  ret : Nat
  errs : List String

/-- Model of `init_matrices(Q, h, V, W)` (lines 36-78): each argument is
checked against NULL in order; the first null one is reported with a
descriptive message and the function returns `EXIT_FAILURE` having written
nothing; otherwise the provider body runs and the function returns
`EXIT_SUCCESS`. -/
def init_matrices (rand : Nat → Int) (randMax : Int) (N : Nat) (gQinit : Buf)
    (Qo ho Vo Wo : Option Buf) : InitOut :=
  match Qo with
  | none => ⟨none, ho, Vo, Wo, EXIT_FAILURE, ["Uninitialized matrix (Q)"]⟩
  | some Q =>
    match ho with
    | none => ⟨some Q, none, Vo, Wo, EXIT_FAILURE, ["Uninitialized matrix (h)"]⟩
    | some h =>
      match Vo with
      | none => ⟨some Q, some h, none, Wo, EXIT_FAILURE, ["Uninitialized matrix (V)"]⟩
      | some V =>
        match Wo with
        | none => ⟨some Q, some h, some V, none, EXIT_FAILURE, ["Uninitialized matrix (W)"]⟩
        | some W =>
          let r := init_core rand randMax N gQinit Q h V W
          ⟨some r.1, some r.2.1, some r.2.2.1, some r.2.2.2, EXIT_SUCCESS, []⟩

/-- Ambient execution environment of one process run: the libc PRNG as a
seed-indexed deterministic stream (`randImpl s k` is the `k`-th `rand()`
value after `srand(s)`), the platform constant `RAND_MAX`, the wall-clock
time of the run (run-dependent; the code's seed is the constant `1001`,
the time-based seeding is commented out in the source), and the
indeterminate initial contents that `malloc` happens to hand out for each
host buffer. -/
structure Env where
  randImpl : Int → Nat → Int
  randMax : Int
  time : Nat
  gQ : Buf
  gQc : Buf
  gh : Buf
  gV : Buf
  gW : Buf
  gY : Buf
  gz : Buf
  gQt : Buf
  ght : Buf
  gQinit : Buf

/-- Row index in `[k, n)` of a maximal-absolute-value entry of column `k`
(first maximum wins), as the partial-pivoting search of `dgetrf` does. -/
def idamaxFrom (a : Buf) (lda n k : Nat) : Nat :=
  ((List.range (n - k)).map (k + ·)).foldl
    (fun p r => if |a (p + k * lda)| < |a (r + k * lda)| then r else p) k

/-- Swap rows `r1` and `r2` of a column-major buffer with leading
dimension `lda`, across its first `ncols` columns. -/
def swapRows (a : Buf) (lda ncols r1 r2 : Nat) : Buf :=
  fun idx =>
    let i := idx % lda
    let j := idx / lda
    if j < ncols ∧ i = r1 then a (r2 + j * lda)
    else if j < ncols ∧ i = r2 then a (r1 + j * lda)
    else a idx

/-- One forward-elimination step (column `k`) of the Gaussian elimination
with partial pivoting that models `dgesv`'s factorization, acting on the
pair (matrix, right-hand sides) plus the `info` status: if the pivot
column is exactly zero, `info` is set to `k+1` (first such `k` wins, as
`dgetrf` documents) and the column is skipped; otherwise rows are swapped
and the entries below the pivot are eliminated. -/
def elimStep (n nrhs lda ldb : Nat) (st : Buf × Buf × Int) (k : Nat) :
    Buf × Buf × Int :=
  let a := st.1
  let b := st.2.1
  let info := st.2.2
  let p := idamaxFrom a lda n k
  if a (p + k * lda) = 0 then
    (a, b, if info = 0 then (k + 1 : Int) else info)
  else
    let a1 := swapRows a lda n k p
    let b1 := swapRows b ldb nrhs k p
    let a2 : Buf := fun idx =>
      let i := idx % lda
      let j := idx / lda
      if k < i ∧ i < n ∧ k ≤ j ∧ j < n then
        a1 idx - a1 (i + k * lda) / a1 (k + k * lda) * a1 (k + j * lda)
      else a1 idx
    let b2 : Buf := fun idx =>
      let i := idx % ldb
      let j := idx / ldb
      if k < i ∧ i < n ∧ j < nrhs then
        b1 idx - a1 (i + k * lda) / a1 (k + k * lda) * b1 (k + j * ldb)
      else b1 idx
    (a2, b2, info)

/-- One back-substitution step for row `i`: scale row `i` of the
right-hand sides by the pivot, then eliminate the entries above it. -/
def backStep (_n nrhs lda ldb : Nat) (a b : Buf) (i : Nat) : Buf :=
  let bi : Buf := fun idx =>
    let r := idx % ldb
    let j := idx / ldb
    if r = i ∧ j < nrhs then b idx / a (i + i * lda) else b idx
  fun idx =>
    let r := idx % ldb
    let j := idx / ldb
    if r < i ∧ j < nrhs then bi idx - a (r + i * lda) * bi (i + j * ldb)
    else bi idx

/-- Back substitution on the upper-triangular factored matrix, rows
`n-1` down to `0`. -/
def backSolve (n nrhs lda ldb : Nat) (a b : Buf) : Buf :=
  (List.range n).foldr (fun i bb => backStep n nrhs lda ldb a bb i) b

/-- Model of `LAPACKE_dgesv(LAPACK_COL_MAJOR, n, nrhs, a, lda, ipiv, b,
ldb)`, from the contract the source cites (netlib dgesv): factorize `a`
in place by Gaussian elimination with partial pivoting; on success
(`info = 0`) overwrite `b` with the solutions; if a pivot column is
exactly singular, return the positive `info` of its first occurrence and
leave `b` as given (the solve is not performed).  The routine is a total
function: it reports failure through `info` only, never an exception. -/
def LAPACKE_dgesv (n nrhs : Nat) (a : Buf) (lda : Nat) (b : Buf) (ldb : Nat) :
    Buf × Buf × Int :=
  let r := (List.range n).foldl (elimStep n nrhs lda ldb) (a, b, 0)
  if r.2.2 = 0 then (r.1, backSolve n nrhs lda ldb r.1 r.2.1, 0)
  else (r.1, b, r.2.2)

/-- Shape of a dense in-place solver: arguments `n nrhs a lda b ldb`,
result (factored matrix, solution set, status). The pipeline is stated
over an arbitrary solver of this shape and instantiated with
`LAPACKE_dgesv`. -/
def SolverFn : Type :=
  Nat → Nat → Buf → Nat → Buf → Nat → Buf × Buf × Int

/-- Host state of `main`: the nine heap buffers, the `info` status
variable, and the list of statuses printed so far. -/
structure PState where
  Q : Buf
  Qc : Buf
  h : Buf
  V : Buf
  W : Buf
  Y : Buf
  z : Buf
  Qt : Buf
  ht : Buf
  info : Int
  out : List Int

/-- The statements of `main`'s host computation (lines 163-194), one
constructor per statement, in a form the step semantics can interpret. -/
inductive Stage where
  | copyZh
  | copyQ
  | solveZ
  | printInfo
  | copyHtW
  | gemvHt
  | freeQc
  | transposeV
  | solveY
  | printInfo2
  | gemmQt
  | printQt
deriving DecidableEq, BEq

/-- Semantics of one statement of `main` over the host state, with the
matrix dimension `N` and the solver `sv`:
`copyZh` is `memcpy(z, h, N)`; `copyQ` is `memcpy(Q_copy_1, Q, N*N)`;
`solveZ` is `info = LAPACKE_dgesv(..., N, 1, Q_copy_1, N, ipiv, z, N)`;
`printInfo`/`printInfo2` print the current `info`; `copyHtW` is
`memcpy(h_tilde, W, 2N)`; `gemvHt` is the `cblas_dgemv` accumulating
`V*z` into `h_tilde`; `freeQc` releases `Q_copy_1` (no data effect);
`transposeV` is `copy_as_transpose<double>(Y, V, N, 2N)`; `solveY` is
`info = LAPACKE_dgesv(..., N, 2N, Q, N, ipiv, Y, N)`; `gemmQt` is the
`cblas_dgemm` producing `Q_tilde = V*Y`; `printQt` prints `Q_tilde`. -/
def step (N : Nat) (sv : SolverFn) : Stage → PState → PState
  | .copyZh, s => { s with z := fun i => if i < N then s.h i else s.z i }
  | .copyQ, s => { s with Qc := fun i => if i < N * N then s.Q i else s.Qc i }
  | .solveZ, s =>
      let r := sv N 1 s.Qc N s.z N
      { s with Qc := r.1, z := r.2.1, info := r.2.2 }
  | .printInfo, s => { s with out := s.out ++ [s.info] }
  | .copyHtW, s => { s with ht := fun i => if i < 2 * N then s.W i else s.ht i }
  | .gemvHt, s => { s with ht := dgemv (2 * N) N 1 s.V (2 * N) s.z 1 s.ht }
  | .freeQc, s => s
  | .transposeV, s => { s with Y := copy_as_transpose s.Y s.V N (2 * N) }
  | .solveY, s =>
      let r := sv N (2 * N) s.Q N s.Y N
      { s with Q := r.1, Y := r.2.1, info := r.2.2 }
  | .printInfo2, s => { s with out := s.out ++ [s.info] }
  | .gemmQt, s =>
      { s with Qt := dgemm false (2 * N) (2 * N) N 1 s.V (2 * N) s.Y N 0 s.Qt (2 * N) }
  | .printQt, s => s

/-- The statements of `main`'s host computation in source order
(lines 163-194). -/
def pipeline : List Stage :=
  [.copyZh, .copyQ, .solveZ, .printInfo, .copyHtW, .gemvHt, .freeQc,
    .transposeV, .solveY, .printInfo2, .gemmQt, .printQt]

/-- Execute a list of statements in order from a given host state. -/
def run (N : Nat) (sv : SolverFn) (l : List Stage) (s : PState) : PState :=
  l.foldl (fun s t => step N sv t s) s

/-- Host state right after `init_matrices` returned: the four input
buffers hold what the call left in them (in `main` they are never null,
so `getD` never falls back), the other five still hold malloc garbage. -/
def stateFromInit (env : Env) (iores : InitOut) : PState :=
  { Q := iores.Q.getD env.gQ
    Qc := env.gQc
    h := iores.h.getD env.gh
    V := iores.V.getD env.gV
    W := iores.W.getD env.gW
    Y := env.gY
    z := env.gz
    Qt := env.gQt
    ht := env.ght
    info := 0
    out := [] }

/-- State of `main` after the allocations and the `init_matrices` call of
line 158 (all nine buffers were successfully allocated, hence non-null). -/
def s0 (N : Nat) (env : Env) : PState :=
  stateFromInit env
    (init_matrices (env.randImpl 1001) env.randMax N env.gQinit
      (some env.gQ) (some env.gh) (some env.gV) (some env.gW))

/-- State after the first `k` statements of `main`'s host computation. -/
def runP (N : Nat) (sv : SolverFn) (env : Env) (k : Nat) : PState :=
  run N sv (pipeline.take k) (s0 N env)

/-- Final host state of `main`'s computation (all statements executed). -/
def finalS (N : Nat) (sv : SolverFn) (env : Env) : PState :=
  run N sv pipeline (s0 N env)

/-- The pipeline as invoked on four externally supplied (possibly null)
input buffers: `init_matrices` runs first, and — exactly as `main` does at
line 158 — its return value is discarded, after which every statement of
the host computation executes unconditionally.  Returns the final state
and the list of statements executed after the `init_matrices` call. -/
def pipelineAfterInit (N : Nat) (env : Env) (sv : SolverFn)
    (Qo ho Vo Wo : Option Buf) : PState × List Stage :=
  let iores := init_matrices (env.randImpl 1001) env.randMax N env.gQinit Qo ho Vo Wo
  (run N sv pipeline (stateFromInit env iores), pipeline)

/-- Observable process outcome: explicit `exit(code)` or `return code`
from `main`. -/
inductive PResult where
  | exited (code : Nat)
  | returned (code : Nat)
deriving DecidableEq

/-- Names of the nine host allocations of `main` (lines 138-155), each
followed by a `HANDLE_ALLOCATION_ERROR` check, in source order. -/
def hostAllocs : List String :=
  ["Q", "Q_copy_1", "h", "V", "W", "Y", "z", "Q_tilde", "h_tilde"]

/-- Process-level model of `main`: `hostOk k` tells whether the `k`-th
host `malloc` succeeds, `devOk k` whether the `k`-th `cudaMalloc`
succeeds.  The first failing host allocation makes
`HANDLE_ALLOCATION_ERROR` call `exit(305)`; otherwise the host
computation runs, then the two device allocations; a failing one makes
`HANDLE_CUDA_ERROR`'s `HandleError` call `exit(EXIT_FAILURE)`; otherwise
`main` returns 0. -/
def mainRun (N : Nat) (env : Env) (sv : SolverFn) (hostOk devOk : Nat → Bool) :
    PResult :=
  match (List.range hostAllocs.length).find? (fun k => ! hostOk k) with
  | some _ => .exited 305
  | none =>
    let _body := finalS N sv env
    if ! devOk 0 then .exited EXIT_FAILURE
    else if ! devOk 1 then .exited EXIT_FAILURE
    else .returned 0

/-- Statement `a` executes strictly before statement `b` in `main`'s host
computation. -/
@[reducible] def before (a b : Stage) : Prop :=
  pipeline.indexOf a < pipeline.indexOf b

/-- A concrete environment for closed witnesses: every `rand()` call
yields 1, `RAND_MAX` is 1 (so every random sample is `2/1000`), and all
malloc garbage is zero. -/
def env0 : Env :=
  { randImpl := fun _ _ => 1
    randMax := 1
    time := 0
    gQ := fun _ => 0
    gQc := fun _ => 0
    gh := fun _ => 0
    gV := fun _ => 0
    gW := fun _ => 0
    gY := fun _ => 0
    gz := fun _ => 0
    gQt := fun _ => 0
    ght := fun _ => 0
    gQinit := fun _ => 0 }

/-- Like `env0` but the malloc garbage of the `V` buffer carries the value
1 at flat index 1 — an index `init_matrices` never writes when `N = 2`. -/
def env1 : Env :=
  { env0 with gV := fun k => if k = 1 then 1 else 0 }

/-- Like `env0` but representing a later process run: a different
wall-clock time and different malloc garbage behind the provider's
scratch `Q_init` buffer. -/
def envB : Env :=
  { env0 with time := 42, gQinit := fun _ => 7 }

/-- A concrete host state (all buffers zero) used to witness facts about
single pipeline statements. -/
def pst0 : PState :=
  { Q := fun _ => 0
    Qc := fun _ => 0
    h := fun _ => 0
    V := fun _ => 0
    W := fun _ => 0
    Y := fun _ => 0
    z := fun _ => 1
    Qt := fun _ => 0
    ht := fun _ => 0
    info := 0
    out := [] }

/-!
Generic lemmas about loops of buffer writes.
-/

theorem wr_at (b : Buf) (i : Nat) (v : ℚ) : wr b i v i = v := by
  simp [wr]

theorem wr_other (b : Buf) (i : Nat) (v : ℚ) (j : Nat) (h : j ≠ i) :
    wr b i v j = b j := by
  simp [wr, h]

theorem foldl_range_frame (u : Buf → Nat → Buf) (m k : Nat)
    (h : ∀ b i, i < m → u b i k = b k) (b : Buf) :
    ((List.range m).foldl u b) k = b k := by
  induction m with
  | zero => simp
  | succ m ih =>
    rw [List.range_succ, List.foldl_append]
    simp only [List.foldl_cons, List.foldl_nil]
    rw [h _ m (by omega)]
    exact ih (fun b i hi => h b i (by omega)) 

theorem foldl_range_hit (u : Buf → Nat → Buf) (m i k : Nat) (v : ℚ)
    (him : i < m) (hhit : ∀ b, u b i k = v)
    (hafter : ∀ b j, i < j → j < m → u b j k = b k) (b : Buf) :
    ((List.range m).foldl u b) k = v := by
  induction m with
  | zero => omega
  | succ m ih =>
    rw [List.range_succ, List.foldl_append]
    simp only [List.foldl_cons, List.foldl_nil]
    by_cases hcase : i = m
    · subst hcase
      exact hhit _
    · rw [hafter _ m (by omega) (by omega)]
      exact ih (by omega) (fun b j hj hjm => hafter b j hj (by omega))

/-!
Characterization of the transpose loops.
-/

theorem transInner_hit (d src : Buf) (r c i m j : Nat) (hj : j < m) (hr : 0 < r) :
    transInner d src r c i m (j * r + i) = src (i * c + j) := by
  unfold transInner
  apply foldl_range_hit _ m j _ _ hj
  · intro b
    exact wr_at _ _ _
  · intro b j2 hlt hm
    apply wr_other
    have : j * r < j2 * r := (mul_lt_mul_right hr).mpr hlt
    omega

theorem transInner_miss (d src : Buf) (r c i m k : Nat)
    (h : ∀ j, j < m → k ≠ j * r + i) :
    transInner d src r c i m k = d k := by
  unfold transInner
  apply foldl_range_frame
  intro b j hj
  exact wr_other _ _ _ _ (h j hj)

theorem copy_as_transpose_hit (d src : Buf) (r c i j : Nat)
    (hi : i < r) (hj : j < c) :
    copy_as_transpose d src r c (j * r + i) = src (i * c + j) := by
  unfold copy_as_transpose transOuter
  apply foldl_range_hit _ r i _ _ hi
  · intro b
    exact transInner_hit b src r c i c j hj (by omega)
  · intro b i2 hlt hr2
    apply transInner_miss
    intro j2 hj2 heq
    have h1 : (j * r + i) % r = i % r := by
      rw [Nat.mul_comm]
      exact Nat.mul_add_mod r j i
    have h2 : (j2 * r + i2) % r = i2 % r := by
      rw [Nat.mul_comm]
      exact Nat.mul_add_mod r j2 i2
    have h3 : i % r = i := Nat.mod_eq_of_lt hi
    have h4 : i2 % r = i2 := Nat.mod_eq_of_lt (by omega)
    rw [heq] at h1
    omega

theorem copy_as_transpose_miss (d src : Buf) (r c k : Nat)
    (h : ∀ i j, i < r → j < c → k ≠ j * r + i) :
    copy_as_transpose d src r c k = d k := by
  unfold copy_as_transpose transOuter
  apply foldl_range_frame
  intro b i hi
  apply transInner_miss
  intro j hj
  exact h i j hi hj

/-- C5: `copy_as_transpose(dest, source, rows, cols)` writes in `dest` the
transposed copy of `source` — entry `(j,i)` of `dest` (a `cols`-by-`rows`
matrix) equals entry `(i,j)` of `source` — and applying the transpose
twice returns a matrix elementwise equal to the original `source`. -/
theorem C5_transpose_involution :
    ∀ (d1 d2 src : Buf) (r c : Nat),
      (∀ i, i < r → ∀ j, j < c →
        copy_as_transpose d1 src r c (j * r + i) = src (i * c + j)) ∧
      (∀ k, k < r * c →
        copy_as_transpose d2 (copy_as_transpose d1 src r c) c r k = src k) := by
  intro d1 d2 src r c
  refine ⟨fun i hi j hj => copy_as_transpose_hit d1 src r c i j hi hj, ?_⟩
  intro k hk
  have hc : 0 < c := by
    rcases Nat.eq_zero_or_pos c with h | h
    · subst h; simp at hk
    · exact h
  have hmodc : k % c < c := Nat.mod_lt _ hc
  have hdiv : k / c < r := (Nat.div_lt_iff_lt_mul hc).mpr hk
  have hsplit : k = (k / c) * c + k % c := by
    rw [Nat.mul_comm]
    exact (Nat.div_add_mod k c).symm
  conv_lhs => rw [hsplit]
  rw [copy_as_transpose_hit d2 (copy_as_transpose d1 src r c) c r (k % c) (k / c)
    hmodc hdiv]
  rw [copy_as_transpose_hit d1 src r c (k / c) (k % c) hdiv hmodc]
  rw [← hsplit]

/-- Witness for C5 at a concrete 2-by-3 matrix. -/
theorem C5_transpose_involution_witness :
    (0 < 2 ∧ 1 < 3 ∧ 5 < 2 * 3) ∧
    copy_as_transpose (fun _ => 0) (fun n => (n : ℚ)) 2 3 (1 * 2 + 0)
      = ((0 * 3 + 1 : Nat) : ℚ) ∧
    copy_as_transpose (fun _ => 0)
        (copy_as_transpose (fun _ => 0) (fun n => (n : ℚ)) 2 3) 3 2 5
      = ((5 : Nat) : ℚ) :=
  ⟨by omega,
    (C5_transpose_involution (fun _ => 0) (fun _ => 0) (fun n => (n : ℚ)) 2 3).1
      0 (by omega) 1 (by omega),
    (C5_transpose_involution (fun _ => 0) (fun _ => 0) (fun n => (n : ℚ)) 2 3).2
      5 (by omega)⟩

/-!
Process-level lemmas about mainRun, shared by the allocation claims.
-/

theorem mainRun_host_fail (N : Nat) (env : Env) (sv : SolverFn)
    (hostOk devOk : Nat → Bool) (k : Nat)
    (hk : k < hostAllocs.length) (hfail : hostOk k = false) :
    mainRun N env sv hostOk devOk = .exited 305 := by
  have hne : (List.range hostAllocs.length).find? (fun j => ! hostOk j) ≠ none := by
    intro hnone
    rw [List.find?_eq_none] at hnone
    have := hnone k (List.mem_range.mpr hk)
    simp [hfail] at this
  obtain ⟨x, hx⟩ := Option.ne_none_iff_exists'.mp hne
  unfold mainRun
  rw [hx]

theorem mainRun_host_ok (N : Nat) (env : Env) (sv : SolverFn)
    (hostOk devOk : Nat → Bool)
    (h : ∀ k, k < hostAllocs.length → hostOk k = true) :
    mainRun N env sv hostOk devOk =
      (if ! devOk 0 then .exited EXIT_FAILURE
       else if ! devOk 1 then .exited EXIT_FAILURE
       else .returned 0) := by
  have hnone : (List.range hostAllocs.length).find? (fun j => ! hostOk j) = none := by
    rw [List.find?_eq_none]
    intro x hx
    simp [h x (List.mem_range.mp hx)]
  unfold mainRun
  rw [hnone]

/-- C2 counterexample: the claimed ordering — transpose of V first, then
the two solves, and only then any Schur-complement assembly — is false of
`main`'s statement order: the transpose comes after the first solve, and
the assembly of `h_tilde` (the `cblas_dgemv`) runs before the second
solve, i.e. an assembly output is materialized before the FACTORED_Y
state. -/
theorem C2_order_counterexample :
    ¬ (before .transposeV .solveZ ∧ before .solveZ .solveY ∧
        before .solveY .gemvHt ∧ before .solveY .gemmQt) := by
  decide

/-- C2 (amended): the actual statement order of the pipeline is: the
h-solve first, then the assembly of `h_tilde`, then the transpose of V,
then the solve for V-transpose, and only then the assembly of `Q_tilde`;
so only `Q_tilde` (not `h_tilde`) is assembled after both solves. -/
theorem C2_order_amended :
    before .solveZ .gemvHt ∧ before .gemvHt .transposeV ∧
    before .transposeV .solveY ∧ before .solveY .gemmQt ∧
    before .solveZ .solveY := by
  decide

/-- C6: whenever one of the nine host allocations of `main` fails, the
process terminates with exit code 305, which is distinct from the
standard failure code; the nine checked allocations are exactly the
buffers Q, Q_copy_1, h, V, W, Y, z, Q_tilde, h_tilde. -/
theorem C6_host_alloc_exit :
    ∀ (N : Nat) (env : Env) (sv : SolverFn) (hostOk devOk : Nat → Bool) (k : Nat),
      k < hostAllocs.length → hostOk k = false →
      mainRun N env sv hostOk devOk = .exited 305 ∧ 305 ≠ EXIT_FAILURE ∧
      hostAllocs = ["Q", "Q_copy_1", "h", "V", "W", "Y", "z", "Q_tilde", "h_tilde"] := by
  intro N env sv hostOk devOk k hk hfail
  exact ⟨mainRun_host_fail N env sv hostOk devOk k hk hfail, by decide, rfl⟩

/-- Witness for C6: a run whose first host allocation fails exits 305. -/
theorem C6_host_alloc_exit_witness :
    (0 < hostAllocs.length ∧ (fun _ : Nat => false) 0 = false) ∧
    (mainRun 1 env0 LAPACKE_dgesv (fun _ => false) (fun _ => true) = .exited 305 ∧
      305 ≠ EXIT_FAILURE ∧
      hostAllocs = ["Q", "Q_copy_1", "h", "V", "W", "Y", "z", "Q_tilde", "h_tilde"]) :=
  ⟨⟨by decide, rfl⟩,
    C6_host_alloc_exit 1 env0 LAPACKE_dgesv (fun _ => false) (fun _ => true) 0
      (by decide) rfl⟩

/-- C7 counterexample: a run in which both device (`cudaMalloc`)
allocations fail while every host allocation succeeds terminates with the
standard failure code `EXIT_FAILURE = 1` — not with a distinctive code
such as 305 — contradicting the claim that device allocation failure also
uses an exit code distinct from the standard one. -/
theorem C7_device_alloc_counterexample :
    mainRun 1 env0 LAPACKE_dgesv (fun _ => true) (fun _ => false)
      = .exited EXIT_FAILURE ∧ EXIT_FAILURE = 1 ∧ (305 : Nat) ≠ EXIT_FAILURE := by
  refine ⟨?_, rfl, by decide⟩
  rfl

/-- C7 (amended): allocation failure is fatal, immediate, not retried and
not recoverable in both cases, but only a host allocation failure uses
the distinctive exit code 305; a device allocation failure terminates
with the standard failure code `EXIT_FAILURE`. -/
theorem C7_alloc_fatal_amended :
    ∀ (N : Nat) (env : Env) (sv : SolverFn) (hostOk devOk : Nat → Bool),
      ((∃ k, k < hostAllocs.length ∧ hostOk k = false) →
        mainRun N env sv hostOk devOk = .exited 305) ∧
      ((∀ k, k < hostAllocs.length → hostOk k = true) →
        (devOk 0 = false ∨ devOk 1 = false) →
        mainRun N env sv hostOk devOk = .exited EXIT_FAILURE) := by
  intro N env sv hostOk devOk
  constructor
  · rintro ⟨k, hk, hfail⟩
    exact mainRun_host_fail N env sv hostOk devOk k hk hfail
  · intro hok hdev
    rw [mainRun_host_ok N env sv hostOk devOk hok]
    rcases hdev with h0 | h1
    · simp [h0]
    · rcases hd0 : devOk 0 with _ | _
      · simp [hd0]
      · simp [hd0, h1]

/-- Witness for C7 (amended): a failing host allocation exits 305, and a
failing device allocation (host ones fine) exits EXIT_FAILURE. -/
theorem C7_alloc_fatal_amended_witness :
    mainRun 1 env0 LAPACKE_dgesv (fun _ => false) (fun _ => true) = .exited 305 ∧
    mainRun 1 env0 LAPACKE_dgesv (fun _ => true) (fun _ => false)
      = .exited EXIT_FAILURE :=
  ⟨(C7_alloc_fatal_amended 1 env0 LAPACKE_dgesv (fun _ => false) (fun _ => true)).1
      ⟨0, by decide, rfl⟩,
    (C7_alloc_fatal_amended 1 env0 LAPACKE_dgesv (fun _ => true) (fun _ => false)).2
      (fun _ _ => rfl) (Or.inl rfl)⟩

/-- C4 counterexample: called with a null `Q`, `init_matrices` does detect
and report the invalid input and returns `EXIT_FAILURE`, but `main`
discards that status (line 158), so the pipeline does not abort: the
statements executed afterwards still include the h-solve and both
assembly steps, contradicting the claim that no solve or assembly runs
afterward. -/
theorem C4_null_input_counterexample :
    (init_matrices (env0.randImpl 1001) env0.randMax 1 env0.gQinit
        none (some env0.gh) (some env0.gV) (some env0.gW)).ret = EXIT_FAILURE ∧
    (init_matrices (env0.randImpl 1001) env0.randMax 1 env0.gQinit
        none (some env0.gh) (some env0.gV) (some env0.gW)).errs
      = ["Uninitialized matrix (Q)"] ∧
    (pipelineAfterInit 1 env0 LAPACKE_dgesv
        none (some env0.gh) (some env0.gV) (some env0.gW)).2.contains .solveZ = true ∧
    (pipelineAfterInit 1 env0 LAPACKE_dgesv
        none (some env0.gh) (some env0.gV) (some env0.gW)).2.contains .gemvHt = true ∧
    (pipelineAfterInit 1 env0 LAPACKE_dgesv
        none (some env0.gh) (some env0.gV) (some env0.gW)).2.contains .gemmQt = true :=
  ⟨rfl, rfl, rfl, rfl, rfl⟩

/-- C4 (amended): a null input among Q, h, V, W is detected up front and
reported with a descriptive message, and `init_matrices` returns
`EXIT_FAILURE` with no buffer written (each buffer leaves the call exactly
as it entered); but the pipeline does not abort: `main` ignores the
returned status, and every statement of the host computation — both
solves and both assembly steps included — still executes afterwards. -/
theorem C4_null_input_amended :
    ∀ (N : Nat) (env : Env) (sv : SolverFn) (Qo ho Vo Wo : Option Buf),
      (Qo = none ∨ ho = none ∨ Vo = none ∨ Wo = none) →
      (init_matrices (env.randImpl 1001) env.randMax N env.gQinit Qo ho Vo Wo).ret
          = EXIT_FAILURE ∧
      (init_matrices (env.randImpl 1001) env.randMax N env.gQinit Qo ho Vo Wo).errs
          ≠ [] ∧
      (init_matrices (env.randImpl 1001) env.randMax N env.gQinit Qo ho Vo Wo).Q = Qo ∧
      (init_matrices (env.randImpl 1001) env.randMax N env.gQinit Qo ho Vo Wo).h = ho ∧
      (init_matrices (env.randImpl 1001) env.randMax N env.gQinit Qo ho Vo Wo).V = Vo ∧
      (init_matrices (env.randImpl 1001) env.randMax N env.gQinit Qo ho Vo Wo).W = Wo ∧
      (pipelineAfterInit N env sv Qo ho Vo Wo).2 = pipeline := by
  intro N env sv Qo ho Vo Wo hnull
  rcases Qo with _ | Q
  · simp [init_matrices, pipelineAfterInit]
  · rcases ho with _ | hbuf
    · simp [init_matrices, pipelineAfterInit]
    · rcases Vo with _ | V
      · simp [init_matrices, pipelineAfterInit]
      · rcases Wo with _ | W
        · simp [init_matrices, pipelineAfterInit]
        · simp at hnull

/-- Witness for C4 (amended) at a concrete null `Q`. -/
theorem C4_null_input_amended_witness :
    (init_matrices (env0.randImpl 1001) env0.randMax 1 env0.gQinit
        none (some env0.gh) (some env0.gV) (some env0.gW)).ret = EXIT_FAILURE ∧
    (init_matrices (env0.randImpl 1001) env0.randMax 1 env0.gQinit
        none (some env0.gh) (some env0.gV) (some env0.gW)).errs ≠ [] ∧
    (init_matrices (env0.randImpl 1001) env0.randMax 1 env0.gQinit
        none (some env0.gh) (some env0.gV) (some env0.gW)).Q = none ∧
    (init_matrices (env0.randImpl 1001) env0.randMax 1 env0.gQinit
        none (some env0.gh) (some env0.gV) (some env0.gW)).h = some env0.gh ∧
    (init_matrices (env0.randImpl 1001) env0.randMax 1 env0.gQinit
        none (some env0.gh) (some env0.gV) (some env0.gW)).V = some env0.gV ∧
    (init_matrices (env0.randImpl 1001) env0.randMax 1 env0.gQinit
        none (some env0.gh) (some env0.gV) (some env0.gW)).W = some env0.gW ∧
    (pipelineAfterInit 1 env0 LAPACKE_dgesv
        none (some env0.gh) (some env0.gV) (some env0.gW)).2 = pipeline :=
  C4_null_input_amended 1 env0 LAPACKE_dgesv
    none (some env0.gh) (some env0.gV) (some env0.gW) (Or.inl rfl)

/-!
Pipeline evaluation helpers: what each buffer holds at the end of the
host computation, expressed over the post-init state and the solver's
outputs.
-/

theorem finalS_W (N : Nat) (sv : SolverFn) (env : Env) :
    ∀ i, (finalS N sv env).W i = (s0 N env).W i := by
  intro i
  simp [finalS, run, pipeline, step]

theorem finalS_V (N : Nat) (sv : SolverFn) (env : Env) :
    (finalS N sv env).V = (s0 N env).V := by
  simp [finalS, run, pipeline, step]

theorem finalS_ht (N : Nat) (sv : SolverFn) (env : Env) :
    ∀ i, i < 2 * N →
      (finalS N sv env).ht i
        = (s0 N env).W i
          + ∑ j ∈ Finset.range N,
              (s0 N env).V (i + j * (2 * N)) * (runP N sv env 3).z j := by
  intro i hi
  simp [finalS, run, pipeline, step, runP, dgemv, hi]
  ring

theorem finalS_Qt (N : Nat) (sv : SolverFn) (env : Env) :
    ∀ i j, i < 2 * N → j < 2 * N →
      (finalS N sv env).Qt (i + j * (2 * N))
        = ∑ l ∈ Finset.range N,
            (s0 N env).V (i + l * (2 * N)) * (runP N sv env 9).Y (l + j * N) := by
  intro i j hi hj
  have h2N : 0 < 2 * N := by omega
  have hmod : (i + j * (2 * N)) % (2 * N) = i := by
    rw [Nat.add_mul_mod_self_right]
    exact Nat.mod_eq_of_lt hi
  have hdiv : (i + j * (2 * N)) / (2 * N) = j := by
    rw [Nat.add_mul_div_right _ _ h2N, Nat.div_eq_of_lt hi]
    omega
  simp [finalS, run, pipeline, step, runP, dgemm, hmod, hdiv, hi, hj]

theorem finalS_out (N : Nat) (sv : SolverFn) (env : Env) :
    (finalS N sv env).out =
      [(sv N 1 (runP N sv env 2).Qc N (runP N sv env 2).z N).2.2,
       (sv N (2 * N) (runP N sv env 8).Q N (runP N sv env 8).Y N).2.2] := by
  simp [finalS, run, pipeline, step, runP, s0, stateFromInit]

/-- C1: after the solver has produced `z` (state 3, right after the
h-solve) and `Y` (state 9, right after the Vt-solve), the assembler
computes the reduced linear term as `h_tilde(i) = W(i) + (V z)(i)` —
accumulated into a copy of `W`, with `W` itself unchanged at the end —
and the reduced Hessian as the dense product `Q_tilde = V * Y`, an
`(2N)`-by-`N` times `N`-by-`(2N)` product yielding an `M`-by-`M` matrix
with `M = 2N` (entry `(i,j)` at column-major index `i + j*2N`). -/
theorem C1_schur_assembly :
    ∀ (N : Nat) (sv : SolverFn) (env : Env),
      (∀ i, i < 2 * N →
        (finalS N sv env).ht i
          = (s0 N env).W i
            + ∑ j ∈ Finset.range N,
                (s0 N env).V (i + j * (2 * N)) * (runP N sv env 3).z j) ∧
      (∀ i, (finalS N sv env).W i = (s0 N env).W i) ∧
      (∀ i j, i < 2 * N → j < 2 * N →
        (finalS N sv env).Qt (i + j * (2 * N))
          = ∑ l ∈ Finset.range N,
              (s0 N env).V (i + l * (2 * N)) * (runP N sv env 9).Y (l + j * N)) :=
  fun N sv env => ⟨finalS_ht N sv env, finalS_W N sv env, finalS_Qt N sv env⟩

/-- Witness for C1 at `N = 1` with the concrete solver and environment. -/
theorem C1_schur_assembly_witness :
    (0 < 2 * 1) ∧
    (finalS 1 LAPACKE_dgesv env0).ht 0
      = (s0 1 env0).W 0
        + ∑ j ∈ Finset.range 1,
            (s0 1 env0).V (0 + j * (2 * 1)) * (runP 1 LAPACKE_dgesv env0 3).z j ∧
    (finalS 1 LAPACKE_dgesv env0).W 0 = (s0 1 env0).W 0 ∧
    (finalS 1 LAPACKE_dgesv env0).Qt (1 + 1 * (2 * 1))
      = ∑ l ∈ Finset.range 1,
          (s0 1 env0).V (1 + l * (2 * 1)) * (runP 1 LAPACKE_dgesv env0 9).Y (l + 1 * 1) :=
  ⟨by omega,
    (C1_schur_assembly 1 LAPACKE_dgesv env0).1 0 (by omega),
    (C1_schur_assembly 1 LAPACKE_dgesv env0).2.1 0,
    (C1_schur_assembly 1 LAPACKE_dgesv env0).2.2 1 1 (by omega) (by omega)⟩

/-- C3: `Q` is duplicated into `Q_copy_1` before the destructive h-solve
(after the `memcpy`, state 2, the copy agrees with `Q` on all `N*N`
entries); the h-solve factorizes only the copy in place (state 3's
`Q_copy_1` is the solver's factored output, while every element of the
original `Q` buffer still equals its pre-solve value); `Q` is still
intact when the second solve starts (state 8), and that solve consumes
`Q` itself, overwriting it with the factored form (state 9). -/
theorem C3_duplicate_before_destructive_solve :
    ∀ (N : Nat) (sv : SolverFn) (env : Env),
      (∀ i, i < N * N → (runP N sv env 2).Qc i = (runP N sv env 2).Q i) ∧
      (∀ i, (runP N sv env 3).Q i = (runP N sv env 2).Q i) ∧
      (runP N sv env 3).Qc
        = (sv N 1 (runP N sv env 2).Qc N (runP N sv env 2).z N).1 ∧
      (∀ i, (runP N sv env 8).Q i = (runP N sv env 2).Q i) ∧
      (runP N sv env 9).Q
        = (sv N (2 * N) (runP N sv env 8).Q N (runP N sv env 8).Y N).1 := by
  intro N sv env
  refine ⟨?_, ?_, ?_, ?_, ?_⟩
  · intro i hi
    simp [runP, run, pipeline, step, hi]
  · intro i
    simp [runP, run, pipeline, step]
  · simp [runP, run, pipeline, step]
  · intro i
    simp [runP, run, pipeline, step]
  · simp [runP, run, pipeline, step]

/-- Witness for C3 at `N = 1` with the concrete solver and environment. -/
theorem C3_duplicate_before_destructive_solve_witness :
    (0 < 1 * 1) ∧
    (runP 1 LAPACKE_dgesv env0 2).Qc 0 = (runP 1 LAPACKE_dgesv env0 2).Q 0 ∧
    (runP 1 LAPACKE_dgesv env0 3).Q 0 = (runP 1 LAPACKE_dgesv env0 2).Q 0 ∧
    (runP 1 LAPACKE_dgesv env0 3).Qc
      = (LAPACKE_dgesv 1 1 (runP 1 LAPACKE_dgesv env0 2).Qc 1
          (runP 1 LAPACKE_dgesv env0 2).z 1).1 ∧
    (runP 1 LAPACKE_dgesv env0 8).Q 0 = (runP 1 LAPACKE_dgesv env0 2).Q 0 ∧
    (runP 1 LAPACKE_dgesv env0 9).Q
      = (LAPACKE_dgesv 1 (2 * 1) (runP 1 LAPACKE_dgesv env0 8).Q 1
          (runP 1 LAPACKE_dgesv env0 8).Y 1).1 :=
  ⟨by omega,
    (C3_duplicate_before_destructive_solve 1 LAPACKE_dgesv env0).1 0 (by omega),
    (C3_duplicate_before_destructive_solve 1 LAPACKE_dgesv env0).2.1 0,
    (C3_duplicate_before_destructive_solve 1 LAPACKE_dgesv env0).2.2.1,
    (C3_duplicate_before_destructive_solve 1 LAPACKE_dgesv env0).2.2.2.1 0,
    (C3_duplicate_before_destructive_solve 1 LAPACKE_dgesv env0).2.2.2.2⟩

/-!
Solver status lemmas: a singular leading column forces a non-zero info.
-/

theorem idamaxFrom_lt (a : Buf) (lda n k : Nat) (hk : k < n) :
    idamaxFrom a lda n k < n := by
  unfold idamaxFrom
  have gen : ∀ (l : List Nat) (p : Nat), (∀ x ∈ l, x < n) → p < n →
      (l.foldl (fun p r =>
        if |a (p + k * lda)| < |a (r + k * lda)| then r else p) p) < n := by
    intro l
    induction l with
    | nil => intro p _ hp; exact hp
    | cons x t ih =>
      intro p hl hp
      simp only [List.foldl_cons]
      apply ih _ (fun y hy => hl y (List.mem_cons_of_mem x hy))
      by_cases hc : |a (p + k * lda)| < |a (x + k * lda)|
      · simpa [hc] using hl x (List.mem_cons_self x t)
      · simpa [hc] using hp
  apply gen
  · intro x hx
    obtain ⟨y, hy, rfl⟩ := List.mem_map.mp hx
    have := List.mem_range.mp hy
    omega
  · exact hk

theorem elimStep_zero_col (n nrhs lda ldb : Nat) (a b : Buf) (hn : 0 < n)
    (hcol : ∀ r, r < n → a r = 0) :
    elimStep n nrhs lda ldb (a, b, 0) 0 = (a, b, 1) := by
  have hp : idamaxFrom a lda n 0 < n := idamaxFrom_lt a lda n 0 hn
  have hz : a (idamaxFrom a lda n 0) = 0 := hcol _ hp
  unfold elimStep
  simp [hz]

theorem elim_foldl_info (n nrhs lda ldb : Nat) :
    ∀ (l : List Nat) (st : Buf × Buf × Int), st.2.2 ≠ 0 →
      ((l.foldl (elimStep n nrhs lda ldb) st)).2.2 = st.2.2 := by
  intro l
  induction l with
  | nil => intro st _; rfl
  | cons x t ih =>
    intro st h
    have hstep : (elimStep n nrhs lda ldb st x).2.2 = st.2.2 := by
      unfold elimStep
      by_cases hz : st.1 (idamaxFrom st.1 lda n x + x * lda) = 0
      · simp [hz, h]
      · simp [hz]
    simp only [List.foldl_cons]
    rw [ih _ (by rw [hstep]; exact h), hstep]

theorem dgesv_zero_col_info (n nrhs : Nat) (a : Buf) (lda : Nat) (b : Buf)
    (ldb : Nat) (hn : 0 < n) (hcol : ∀ r, r < n → a r = 0) :
    (LAPACKE_dgesv n nrhs a lda b ldb).2.2 = 1 := by
  obtain ⟨m, rfl⟩ : ∃ m, n = m + 1 := ⟨n - 1, by omega⟩
  have hr : ((List.range (m + 1)).foldl (elimStep (m + 1) nrhs lda ldb)
      (a, b, 0)).2.2 = 1 := by
    rw [List.range_succ_eq_map]
    simp only [List.foldl_cons]
    rw [elimStep_zero_col (m + 1) nrhs lda ldb a b hn hcol]
    exact elim_foldl_info (m + 1) nrhs lda ldb _ (a, b, 1) (by norm_num)
  simp [LAPACKE_dgesv, hr]

/-- C8: if the factorization meets an exactly singular pivot column (here:
a zero leading column), the modelled `LAPACKE_dgesv` reports it through a
non-zero (positive) `info` status — it is a total function returning a
status, with no exception mechanism — and `main` receives that status in
its `info` variable after each of the two solve calls and inspects it
(the two printed status reports are exactly the statuses the two solver
calls returned), with the pipeline continuing either way rather than
recovering automatically. -/
theorem C8_singularity_status :
    (∀ (n nrhs : Nat) (a : Buf) (lda : Nat) (b : Buf) (ldb : Nat),
      0 < n → (∀ r, r < n → a r = 0) →
      (LAPACKE_dgesv n nrhs a lda b ldb).2.2 = 1) ∧
    (∀ (N : Nat) (sv : SolverFn) (env : Env),
      (runP N sv env 3).info
          = (sv N 1 (runP N sv env 2).Qc N (runP N sv env 2).z N).2.2 ∧
      (runP N sv env 9).info
          = (sv N (2 * N) (runP N sv env 8).Q N (runP N sv env 8).Y N).2.2 ∧
      (finalS N sv env).out =
        [(sv N 1 (runP N sv env 2).Qc N (runP N sv env 2).z N).2.2,
         (sv N (2 * N) (runP N sv env 8).Q N (runP N sv env 8).Y N).2.2]) := by
  constructor
  · exact dgesv_zero_col_info
  · intro N sv env
    refine ⟨?_, ?_, finalS_out N sv env⟩
    · simp [runP, run, pipeline, step]
    · simp [runP, run, pipeline, step]

/-- Witness for C8: the 1-by-1 zero matrix makes the solver report
`info = 1`, and a concrete run records both solver statuses. -/
theorem C8_singularity_status_witness :
    ((0 : Nat) < 1 ∧ (fun _ : Nat => (0 : ℚ)) 0 = 0) ∧
    (LAPACKE_dgesv 1 1 (fun _ => 0) 1 (fun _ => 0) 1).2.2 = 1 ∧
    (finalS 1 LAPACKE_dgesv env0).out =
      [(LAPACKE_dgesv 1 1 (runP 1 LAPACKE_dgesv env0 2).Qc 1
          (runP 1 LAPACKE_dgesv env0 2).z 1).2.2,
       (LAPACKE_dgesv 1 (2 * 1) (runP 1 LAPACKE_dgesv env0 8).Q 1
          (runP 1 LAPACKE_dgesv env0 8).Y 1).2.2] :=
  ⟨⟨by omega, rfl⟩,
    C8_singularity_status.1 1 1 (fun _ => 0) 1 (fun _ => 0) 1 (by omega)
      (fun r _ => rfl),
    (C8_singularity_status.2 1 LAPACKE_dgesv env0).2.2⟩

/-!
Determinism of the data provider.
-/

theorem lin_idx_lt (l i N : Nat) (hl : l < N) (hi : i < N) :
    l + i * N < N * N := by
  have h1 : i * N ≤ (N - 1) * N := Nat.mul_le_mul_right N (by omega)
  have h2 : (N - 1) * N = N * N - 1 * N := Nat.sub_mul N 1 N
  have h3 : N ≤ N * N := Nat.le_mul_of_pos_left N (by omega)
  omega

theorem dgemm_sq_agree (N : Nat) (A B C : Buf)
    (hAB : ∀ i, i < N * N → A i = B i) :
    dgemm true N N N 1 A N A N 0 C N = dgemm true N N N 1 B N B N 0 C N := by
  funext idx
  unfold dgemm
  simp only
  by_cases hN : N = 0
  · subst hN
    simp
  by_cases hij : idx % N < N ∧ idx / N < N
  · rw [if_pos hij, if_pos hij]
    simp only [eq_self_iff_true, if_true]
    congr 2
    apply Finset.sum_congr rfl
    intro l hl
    have hlN := Finset.mem_range.mp hl
    rw [hAB _ (lin_idx_lt l (idx % N) N hlN hij.1),
      hAB _ (lin_idx_lt l (idx / N) N hlN hij.2)]
  · rw [if_neg hij, if_neg hij]

theorem init_core_gQinit_indep (rand : Nat → Int) (randMax : Int) (N : Nat)
    (g1 g2 Q h V W : Buf) :
    init_core rand randMax N g1 Q h V W = init_core rand randMax N g2 Q h V W := by
  simp only [init_core]
  rw [dgemm_sq_agree N
    (fun i => if i < N * N then randVal randMax (rand i) else g1 i)
    (fun i => if i < N * N then randVal randMax (rand i) else g2 i)
    Q (fun i hi => by simp [hi])]

/-- C10: the data provider is deterministic across runs: `init_matrices`
seeds the PRNG with the fixed constant 1001 (never with the run-varying
time), and reads its scratch `Q_init` buffer only on the `N*N` entries it
itself filled, so two executions in environments sharing the same libc
PRNG and `RAND_MAX` — but with arbitrary different wall-clock times and
arbitrary different malloc garbage behind `Q_init` — produce identical
contents of Q, h, V and W from the same non-null input buffers. -/
theorem C10_deterministic_provider :
    ∀ (N : Nat) (e1 e2 : Env) (Q h V W : Buf),
      e1.randImpl = e2.randImpl → e1.randMax = e2.randMax →
      init_matrices (e1.randImpl 1001) e1.randMax N e1.gQinit
          (some Q) (some h) (some V) (some W)
        = init_matrices (e2.randImpl 1001) e2.randMax N e2.gQinit
          (some Q) (some h) (some V) (some W) := by
  intro N e1 e2 Q h V W hr hm
  rw [hr, hm]
  simp only [init_matrices]
  rw [init_core_gQinit_indep (e2.randImpl 1001) e2.randMax N e1.gQinit e2.gQinit
    Q h V W]

/-- Witness for C10: a run at time 0 and a run at time 42 with different
`Q_init` garbage produce the same provider output. -/
theorem C10_deterministic_provider_witness :
    (env0.randImpl = envB.randImpl ∧ env0.randMax = envB.randMax ∧
      env0.time ≠ envB.time ∧ env0.gQinit 0 ≠ envB.gQinit 0) ∧
    init_matrices (env0.randImpl 1001) env0.randMax 1 env0.gQinit
        (some (fun _ => 0)) (some (fun _ => 0)) (some (fun _ => 0))
        (some (fun _ => 0))
      = init_matrices (envB.randImpl 1001) envB.randMax 1 envB.gQinit
        (some (fun _ => 0)) (some (fun _ => 0)) (some (fun _ => 0))
        (some (fun _ => 0)) :=
  ⟨⟨rfl, rfl, by simp [env0, envB], by norm_num [env0, envB]⟩,
    C10_deterministic_provider 1 env0 envB
      (fun _ => 0) (fun _ => 0) (fun _ => 0) (fun _ => 0) rfl rfl⟩

/-!
Characterization of the provider's writes to V.
-/

theorem initLoop_eq (rand : Nat → Int) (randMax : Int) (N : Nat)
    (st : Buf × Buf × Buf × Buf) :
    initLoop rand randMax N st =
      ((List.range N).foldl (qUpd N) st.1,
       (List.range N).foldl (hUpd rand randMax N) st.2.1,
       (List.range N).foldl (vUpd N) st.2.2.1,
       (List.range N).foldl (wUpd N) st.2.2.2) := by
  unfold initLoop
  generalize List.range N = l
  induction l generalizing st with
  | nil => rfl
  | cons x t ih =>
    simp only [List.foldl_cons]
    exact ih _

theorem vFold_diag (N : Nat) (v : Buf) (i : Nat) (hi : i < N) :
    ((List.range N).foldl (vUpd N) v) (i * (2 * N + 1)) = 1 := by
  apply foldl_range_hit _ N i _ _ hi
  · intro b
    unfold vUpd
    rw [wr_other _ _ _ _ (by omega), wr_at]
  · intro b j hij hjN
    unfold vUpd
    have hlt : i * (2 * N + 1) < j * (2 * N + 1) :=
      (mul_lt_mul_right (by omega)).mpr hij
    rw [wr_other _ _ _ _ (by omega), wr_other _ _ _ _ (by omega)]

theorem vFold_low (N : Nat) (v : Buf) (i : Nat) (hi : i < N) :
    ((List.range N).foldl (vUpd N) v) (i * (2 * N + 1) + N) = -1 := by
  apply foldl_range_hit _ N i _ _ hi
  · intro b
    unfold vUpd
    rw [wr_at]
  · intro b j hij hjN
    unfold vUpd
    have hle : (i + 1) * (2 * N + 1) ≤ j * (2 * N + 1) :=
      Nat.mul_le_mul_right _ (by omega)
    have hexp : (i + 1) * (2 * N + 1) = i * (2 * N + 1) + (2 * N + 1) := by
      ring
    rw [wr_other _ _ _ _ (by omega), wr_other _ _ _ _ (by omega)]

theorem vFold_miss (N : Nat) (v : Buf) (k : Nat)
    (h : ∀ i, i < N → k ≠ i * (2 * N + 1) ∧ k ≠ i * (2 * N + 1) + N) :
    ((List.range N).foldl (vUpd N) v) k = v k := by
  apply foldl_range_frame
  intro b i hi
  unfold vUpd
  rw [wr_other _ _ _ _ (h i hi).2, wr_other _ _ _ _ (h i hi).1]

theorem init_core_V (rand : Nat → Int) (randMax : Int) (N : Nat)
    (g Q h V W : Buf) :
    (init_core rand randMax N g Q h V W).2.2.1
      = (List.range N).foldl (vUpd N) V := by
  simp only [init_core]
  rw [initLoop_eq]

theorem s0_V (N : Nat) (env : Env) :
    (s0 N env).V = (List.range N).foldl (vUpd N) env.gV := by
  have h : (s0 N env).V
      = (init_core (env.randImpl 1001) env.randMax N env.gQinit
          env.gQ env.gh env.gV env.gW).2.2.1 := rfl
  rw [h, init_core_V]

/-- C9: the data provider writes exactly `2N` of the `2N*N` elements of
the constraint matrix `V` — in column-major terms `V(i,i) = 1` (flat
index `i + i*2N`) and `V(N+i,i) = -1` (flat index `(N+i) + i*2N`) for
each `i < N` — while every other element of the malloc-allocated `V`
buffer keeps its indeterminate malloc contents; no later pipeline
statement writes `V` before the assembler reads it, and `V` at the time
of the reads is exactly the provider-written fold over the malloc
garbage; and the assembler's matrix-vector multiply does read such an
unwritten element: at `N = 2`, changing the garbage at flat index 1 (an
index the provider never writes, by the second part) to `q` shifts the
assembled `h_tilde(1)` by `(q - V(1)) * z(0)`, so the read observes the
indeterminate value. -/
theorem C9_uninitialized_V_reads :
    (∀ (N : Nat) (rand : Nat → Int) (randMax : Int) (g Q h V W : Buf),
      (∀ i, i < N →
        (init_core rand randMax N g Q h V W).2.2.1 (i + i * (2 * N)) = 1 ∧
        (init_core rand randMax N g Q h V W).2.2.1 ((N + i) + i * (2 * N)) = -1) ∧
      (∀ k, k < 2 * N * N →
        (∀ i, i < N → k ≠ i + i * (2 * N) ∧ k ≠ (N + i) + i * (2 * N)) →
        (init_core rand randMax N g Q h V W).2.2.1 k = V k)) ∧
    (∀ (N : Nat) (sv : SolverFn) (env : Env),
      (finalS N sv env).V = (s0 N env).V ∧
      (s0 N env).V = (List.range N).foldl (vUpd N) env.gV) ∧
    (∀ (sv : SolverFn) (s : PState) (q : ℚ),
      (step 2 sv .gemvHt { s with V := wr s.V 1 q }).ht 1
        = (step 2 sv .gemvHt s).ht 1 + (q - s.V 1) * s.z 0) := by
  refine ⟨?_, ?_, ?_⟩
  · intro N rand randMax g Q h V W
    constructor
    · intro i hi
      constructor
      · have e1 : i + i * (2 * N) = i * (2 * N + 1) := by ring
        rw [init_core_V, e1]
        exact vFold_diag N V i hi
      · have e2 : (N + i) + i * (2 * N) = i * (2 * N + 1) + N := by ring
        rw [init_core_V, e2]
        exact vFold_low N V i hi
    · intro k hk hmiss
      rw [init_core_V]
      apply vFold_miss
      intro i hi
      obtain ⟨h1, h2⟩ := hmiss i hi
      constructor
      · intro e
        apply h1
        rw [e]
        ring
      · intro e
        apply h2
        rw [e]
        ring
  · intro N sv env
    exact ⟨finalS_V N sv env, s0_V N env⟩
  · intro sv s q
    simp [step, dgemv, wr, Finset.sum_range_succ]
    ring

/-- Witness for C9 at `N = 2`: flat index 1 is unwritten and the `gemvHt`
statement's output at row 1 depends on it. -/
theorem C9_uninitialized_V_reads_witness :
    ((0 : Nat) < 2 ∧ (1 : Nat) < 2 * 2 * 2) ∧
    (init_core (fun _ => 1) 1 2 (fun _ => 0) (fun _ => 0) (fun _ => 0)
        (fun _ => 0) (fun _ => 0)).2.2.1 (0 + 0 * (2 * 2)) = 1 ∧
    (init_core (fun _ => 1) 1 2 (fun _ => 0) (fun _ => 0) (fun _ => 0)
        (fun _ => 0) (fun _ => 0)).2.2.1 ((2 + 0) + 0 * (2 * 2)) = -1 ∧
    (init_core (fun _ => 1) 1 2 (fun _ => 0) (fun _ => 0) (fun _ => 0)
        (fun _ => 0) (fun _ => 0)).2.2.1 1 = (fun _ => (0 : ℚ)) 1 ∧
    (finalS 2 LAPACKE_dgesv env0).V = (s0 2 env0).V ∧
    (step 2 LAPACKE_dgesv .gemvHt { pst0 with V := wr pst0.V 1 5 }).ht 1
      = (step 2 LAPACKE_dgesv .gemvHt pst0).ht 1 + (5 - pst0.V 1) * pst0.z 0 :=
  ⟨⟨by omega, by omega⟩,
    ((C9_uninitialized_V_reads.1 2 (fun _ => 1) 1 (fun _ => 0) (fun _ => 0)
        (fun _ => 0) (fun _ => 0) (fun _ => 0)).1 0 (by omega)).1,
    ((C9_uninitialized_V_reads.1 2 (fun _ => 1) 1 (fun _ => 0) (fun _ => 0)
        (fun _ => 0) (fun _ => 0) (fun _ => 0)).1 0 (by omega)).2,
    (C9_uninitialized_V_reads.1 2 (fun _ => 1) 1 (fun _ => 0) (fun _ => 0)
        (fun _ => 0) (fun _ => 0) (fun _ => 0)).2 1 (by omega) (by decide),
    (C9_uninitialized_V_reads.2.1 2 LAPACKE_dgesv env0).1,
    C9_uninitialized_V_reads.2.2 LAPACKE_dgesv pst0 5⟩
